import Mathlib

/- Verification of iron_pylightxl's reader (src/_src/readxl.py) against its
   natural-language specification.  The Python string scanning is embedded
   shallowly on `List Char`: `str.split(sep)` becomes `splitOnL`, the regular
   expressions of the source (which are all used on single-line XML part
   texts, where `.` never has to cross a newline) become the corresponding
   first-match/greedy extraction functions, Python dicts become
   insertion-ordered association lists with `dictUpdate` mirroring
   `dict.update({k: v})`, and exceptions become `Except` errors. -/

abbrev Chars := List Char

/-- Scanner for `splitOnL`: `rsep` is the reversed separator, `n` its length,
`acc` the reversed characters of the field being accumulated.  A field ends as
soon as the last `n` characters read equal the separator, which is exactly the
leftmost-first, non-overlapping behaviour of Python `str.split`. -/
def splitOnAux (rsep : Chars) (n : Nat) : Chars → Chars → List Chars
  | acc, [] => [acc.reverse]
  | acc, c :: rest =>
    if rsep.isPrefixOf (c :: acc) then
      ((c :: acc).drop n).reverse :: splitOnAux rsep n [] rest
    else
      splitOnAux rsep n (c :: acc) rest

/-- Python `text.split(sep)` for a non-empty separator (the source never
splits on an empty separator). -/
def splitOnL (sep : Chars) (l : Chars) : List Chars :=
  if sep.isEmpty then [l] else splitOnAux sep.reverse sep.length [] l

/-- Python `sub in s` (contiguous substring test). -/
def containsSeq (sub : Chars) : Chars → Bool
  | [] => sub.isEmpty
  | c :: rest => sub.isPrefixOf (c :: rest) || containsSeq sub rest

/-- Embeds the source's greedy extraction regexes
`(?<=OPEN)(.*)(?=CLOSE)` followed by `findall(...)[0]`: the text between the
first occurrence of `op` and the last occurrence of `cl` after it, `none`
when either marker is missing (Python raises `IndexError`).  The embedding is
exact for the single-line part texts the source applies these regexes to. -/
def extractGreedy (op cl text : Chars) : Option Chars :=
  let parts := splitOnL op text
  if parts.length < 2 then none
  else
    let after := List.intercalate op parts.tail
    let ps := splitOnL cl after
    if ps.length < 2 then none
    else some (List.intercalate cl ps.dropLast)

/-- Python `d.update({k: v})` on an insertion-ordered association list:
an existing key keeps its position and gets the new value, a new key is
appended at the end. -/
def dictUpdate {α β : Type} [DecidableEq α] (d : List (α × β)) (k : α) (v : β) :
    List (α × β) :=
  if d.any (fun p => decide (p.1 = k)) then
    d.map (fun p => if p.1 = k then (k, v) else p)
  else
    d ++ [(k, v)]

/-- Python `d[k]` as an `Option` (a `KeyError` becomes `none`). -/
def dictGet {α β : Type} [DecidableEq α] (d : List (α × β)) (k : α) : Option β :=
  (d.find? (fun p => decide (p.1 = k))).map Prod.snd

/-- Keys of an association list, in insertion order. -/
def dKeys {α β : Type} (d : List (α × β)) : List α := d.map Prod.fst

/-- Python `enumerate(l, k)`. -/
def enumFromL {α : Type} (k : Nat) : List α → List (Nat × α)
  | [] => []
  | a :: as => (k, a) :: enumFromL (k + 1) as

/-- Python `l.index(x)`: index of the first occurrence, `none` when absent
(Python raises `ValueError`). -/
def listIndex (l : List Chars) (x : Chars) : Option Nat :=
  match l with
  | [] => none
  | a :: as => if a = x then some 0 else (listIndex as x).map (· + 1)

/-- Python `l.pop(i)` (the resulting list; the source discards the popped
value).  Callers check `i < l.length` first, as Python raises `IndexError`
otherwise. -/
def popAt (l : List Chars) (i : Nat) : List Chars := l.take i ++ l.drop (i + 1)

/-- Maps a fallible extraction over a list, failing at the first failure,
like the source loops that index into `split` results. -/
def mapO (f : Chars → Option Chars) : List Chars → Option (List Chars)
  | [] => some []
  | x :: xs =>
    match f x, mapO f xs with
    | some y, some ys => some (y :: ys)
    | _, _ => none

/-- Numeric value of a list of ASCII digits. -/
def digitsToNat (ds : Chars) : Nat :=
  ds.foldl (fun a c => a * 10 + (c.toNat - 48)) 0

/-- Digit run acceptable to Python `int()` after sign removal: non-empty
ASCII digits, with single `_` group separators allowed between digits. -/
def usDigits (ds : Chars) : Bool :=
  decide (ds ≠ []) && ds.all (fun c => c.isDigit || c == '_') &&
  decide (ds.head? ≠ some '_') && decide (ds.getLast? ≠ some '_') &&
  !(containsSeq ['_', '_'] ds)

def pyIntCore (ds : Chars) : Option Int :=
  if usDigits ds then some (Int.ofNat (digitsToNat (ds.filter (fun c => c != '_')))) else none

/-- Models CPython `int(s)` on ASCII decimal literals: surrounding whitespace
is stripped, one optional sign, then digits (with `_` group separators); any
other input is `none` (Python raises `ValueError`).  Non-ASCII digit forms
are outside the modelled scope. -/
def pyInt (s : Chars) : Option Int :=
  match ((s.dropWhile Char.isWhitespace).reverse.dropWhile Char.isWhitespace).reverse with
  | '-' :: ds => (pyIntCore ds).map (fun n => -n)
  | '+' :: ds => pyIntCore ds
  | ds => pyIntCore ds

/- Textual markers used by readxl.py, as character lists. -/

def sheetsOpen : Chars := "<sheets>".toList
def sheetsClose : Chars := "</sheets>".toList
def selfClose : Chars := "/>".toList
def sheetTok : Chars := "sheet".toList
def tOpen : Chars := "<t>".toList
def tClose : Chars := "</t>".toList
def sheetDataOpen : Chars := "<sheetData>".toList
def sheetDataClose : Chars := "</sheetData>".toList
def cellMark : Chars := "<c r=".toList
def tMark : Chars := "t=\"s\"".toList
def vOpen : Chars := "<v>".toList
def vClose : Chars := "</v>".toList
def wbPath : Chars := "xl/workbook.xml".toList
def ssPath : Chars := "xl/sharedStrings.xml".toList

/-- Embeds `get_sheetnames` (readxl.py:80-104): isolate the text between
`<sheets>` and `</sheets>`, split it on `/>` dropping the trailing piece, and
take each fragment's `split('"')[1]` as the sheet name.  `none` models the
`IndexError` raised when a marker or the quoted name is missing. -/
def get_sheetnames (text : Chars) : Option (List Chars) :=
  match extractGreedy sheetsOpen sheetsClose text with
  | none => none
  | some sec => mapO (fun l => (splitOnL ['"'] l)[1]?) ((splitOnL selfClose sec).dropLast)

/-- Embeds `get_zipsheetnames` (readxl.py:107-114): the archive entry names
containing `'sheet'` as a substring, in archive enumeration order. -/
def get_zipsheetnames (names : List Chars) : List Chars :=
  names.filter (fun n => containsSeq sheetTok n)

/-- The text values found by the regex `<t>(.*?)</t>`, in order of
appearance: each part delimited by `</t>` (except the last) that contains a
`<t>` contributes everything after its first `<t>`. -/
def tagTVals (text : Chars) : List Chars :=
  ((splitOnL tClose text).dropLast).filterMap (fun p =>
    let ps := splitOnL tOpen p
    if ps.length < 2 then none else some (List.intercalate tOpen ps.tail))

abbrev SS := List (Nat × Chars)

/-- Embeds `get_sharedStrings` (readxl.py:117-135): the dict built by
`sharedStrings.update({i: val})` over `enumerate(tag_t_vals)`. -/
def get_sharedStrings (text : Chars) : SS :=
  (enumFromL 0 (tagTVals text)).foldl (fun d p => dictUpdate d p.1 p.2) []

/-- The shared-string lookup `sharedString[int(cell_val)]`: the dict is keyed
by the naturals `0..n-1`, the subscript is a Python int. -/
def ssGet (ss : SS) (i : Int) : Option Chars :=
  (ss.find? (fun p => decide ((p.1 : Int) = i))).map Prod.snd

/-- Characters of the leading character class of the source's cell-address
regex `[^<r c="][^"]+` (readxl.py:163). -/
def addrClass : Chars := ['<', 'r', ' ', 'c', '=', '"']

/-- Embeds `re.findall(r'[^<r c="][^"]+', frag)[0]`: the first position whose
character is outside the class and is followed by at least one non-quote
character starts the match, which greedily takes the following non-quote run;
`none` models the `IndexError` when no position matches. -/
def findCellAddress : Chars → Option Chars
  | [] => none
  | c :: rest =>
    if c ∉ addrClass ∧ rest.takeWhile (· ≠ '"') ≠ [] then
      some (c :: rest.takeWhile (· ≠ '"'))
    else
      findCellAddress rest

inductive ScrapeError where
  /-- `<sheetData>` section markers absent (`IndexError` at readxl.py:153). -/
  | malformedWorksheet
  /-- no cell address found in a fragment (`IndexError` at readxl.py:165). -/
  | noCellAddress
  /-- `<v>...</v>` value token absent (`IndexError` at readxl.py:169). -/
  | malformedCell
  /-- `int(cell_val)` failed (`ValueError` at readxl.py:172). -/
  | intConversionError
  /-- shared-string index not a key of the table (`KeyError` at
  readxl.py:172); the spec calls this `UnresolvedSharedString`. -/
  | unresolvedSharedString
deriving DecidableEq

abbrev Grid := List (Chars × Chars)

/-- The body of the per-fragment loop of `scrape_worksheetxml`
(readxl.py:161-174): extract the cell address, test for the string marker
`t="s"`, extract the value token, and resolve string-typed cells through the
shared-string table. -/
def processCell (ss : SS) (frag : Chars) : Except ScrapeError (Chars × Chars) :=
  match findCellAddress frag with
  | none => .error .noCellAddress
  | some addr =>
    match extractGreedy vOpen vClose frag with
    | none => .error .malformedCell
    | some v =>
      if containsSeq tMark frag then
        match pyInt v with
        | none => .error .intConversionError
        | some i =>
          match ssGet ss i with
          | none => .error .unresolvedSharedString
          | some s => .ok (addr, s)
      else
        .ok (addr, v)

/-- The accumulation loop of `scrape_worksheetxml`: `data.update({addr: v})`
per fragment, aborting at the first exception. -/
def scrapeCells (ss : SS) : Grid → List Chars → Except ScrapeError Grid
  | db, [] => .ok db
  | db, frag :: rest =>
    match processCell ss frag with
    | .error e => .error e
    | .ok av => scrapeCells ss (dictUpdate db av.1 av.2) rest

/-- Embeds `scrape_worksheetxml` (readxl.py:138-176): isolate the
`<sheetData>` section, split it on `<c r=` discarding the zeroth piece, and
run the per-cell loop. -/
def scrape_worksheetxml (text : Chars) (ss : SS) : Except ScrapeError Grid :=
  match extractGreedy sheetDataOpen sheetDataClose text with
  | none => .error .malformedWorksheet
  | some sec => scrapeCells ss [] ((splitOnL cellMark sec).drop 1)

/-- The `<c r=` fragments of a worksheet text ([] when the `<sheetData>`
markers are absent). -/
def cellFrags (text : Chars) : List Chars :=
  match extractGreedy sheetDataOpen sheetDataClose text with
  | none => []
  | some sec => (splitOnL cellMark sec).drop 1

/-- A zip archive: named entries with text contents, in enumeration order
(`NameToInfo` preserves insertion order). -/
structure Archive where
  entries : List (Chars × Chars)

def Archive.names (z : Archive) : List Chars := z.entries.map Prod.fst

def Archive.readEntry (z : Archive) (n : Chars) : Option Chars :=
  (z.entries.find? (fun p => decide (p.1 = n))).map Prod.snd

inductive ReadError where
  /-- `xl/workbook.xml` missing (`KeyError` at readxl.py:30). -/
  | missingWorkbook
  /-- `get_sheetnames` raised (`IndexError`). -/
  | malformedManifest
  /-- `ValueError` raised at readxl.py:43: a requested sheet name is not in
  the workbook; the spec calls this `SheetNotFound`. -/
  | sheetNotFound (name : Chars)
  /-- `zip_sheetnames.pop(pop_index)` out of range (`IndexError` at
  readxl.py:41). -/
  | popIndexError
  /-- `sh_names[i]` out of range in the scrape loop (`IndexError` at
  readxl.py:55). -/
  | nameIndexError
  /-- a worksheet part name has no entry (cannot happen for names taken from
  the archive itself). -/
  | missingPart
  /-- an exception propagated out of the scrape of one sheet. -/
  | scrapeError (e : ScrapeError)
deriving DecidableEq

abbrev Database := List (Chars × Grid)

/-- Modelled from the spec: `database.py` (class `Database` and its method
`add_ws`, called at readxl.py:55) is not under src.  Per spec section 2 and
section 4.5 the Database "accumulates results into a tabular database keyed
by sheet name", so `add_ws` is modelled as insertion-ordered map update keyed
by the sheet's display name. -/
def dbAddWs (db : Database) (name : Chars) (grid : Grid) : Database :=
  dictUpdate db name grid

/-- The filtering loop of `readxl` (readxl.py:37-43): for each requested
name, find its index in the manifest names (`ValueError` when absent) and pop
that index out of the zip sheet-name list (`IndexError` when out of range). -/
def removeRequested (shNames : List Chars) : List Chars → List Chars → Except ReadError (List Chars)
  | zipNames, [] => .ok zipNames
  | zipNames, sn :: rest =>
    match listIndex shNames sn with
    | none => .error (.sheetNotFound sn)
    | some i =>
      if i < zipNames.length then removeRequested shNames (popAt zipNames i) rest
      else .error .popIndexError

/-- The scrape loop of `readxl` (readxl.py:53-55): `db.add_ws(sh_names[i],
scrape(zip_sheetnames[i]))` for `i = 0, 1, ...`. -/
def assembleLoop (z : Archive) (ss : SS) (shNames : List Chars) :
    Nat → List Chars → Database → Except ReadError Database
  | _, [], db => .ok db
  | i, zn :: rest, db =>
    match shNames[i]? with
    | none => .error .nameIndexError
    | some nm =>
      match z.readEntry zn with
      | none => .error .missingPart
      | some content =>
        match scrape_worksheetxml content ss with
        | .error e => .error (.scrapeError e)
        | .ok grid => assembleLoop z ss shNames (i + 1) rest (dbAddWs db nm grid)

/-- `readxl` (readxl.py:12-57) with the shared-string table as a parameter:
read the manifest, list the zip sheet names, filter by the requested names
when any were given, then scrape each remaining part.  `check_excelfile` is
pure filesystem validation and is outside the embedded archive model. -/
def readxlCore (z : Archive) (sheetnames : List Chars) (ss : SS) : Except ReadError Database :=
  match z.readEntry wbPath with
  | none => .error .missingWorkbook
  | some wbText =>
    match get_sheetnames wbText with
    | none => .error .malformedManifest
    | some shNames =>
      match (if sheetnames.isEmpty then .ok (get_zipsheetnames z.names)
             else removeRequested shNames (get_zipsheetnames z.names) sheetnames) with
      | .error e => .error e
      | .ok zipNames => assembleLoop z ss shNames 0 zipNames []

/-- The shared-string table of an archive (readxl.py:46-50): empty when the
`xl/sharedStrings.xml` entry is absent. -/
def ssOf (z : Archive) : SS :=
  match z.readEntry ssPath with
  | some t => get_sharedStrings t
  | none => []

/-- Embeds `readxl` end to end. -/
def readxl (z : Archive) (sheetnames : List Chars) : Except ReadError Database :=
  readxlCore z sheetnames (ssOf z)

/- Concrete fixtures: small single-line archives in the layout Excel
produces. -/

def wbTextOf (body : String) : Chars :=
  ("<workbook><sheets>" ++ body ++ "</sheets></workbook>").toList

def wbText1 : Chars := wbTextOf "<sheet name=\"Sheet1\" sheetId=\"1\"/>"

def wbText2 : Chars :=
  wbTextOf "<sheet name=\"Sheet1\" sheetId=\"1\"/><sheet name=\"Sheet2\" sheetId=\"2\"/>"

def wbText3 : Chars :=
  wbTextOf "<sheet name=\"Sheet1\" sheetId=\"1\"/><sheet name=\"Sheet2\" sheetId=\"2\"/><sheet name=\"Sheet3\" sheetId=\"3\"/>"

def wsOf (v : String) : Chars :=
  ("<worksheet><sheetData><c r=\"A1\"><v>" ++ v ++ "</v></c></sheetData></worksheet>").toList

def archC1 : Archive :=
  ⟨[(wbPath, wbText3),
    ("xl/worksheets/sheet1.xml".toList, wsOf "11"),
    ("xl/worksheets/sheet2.xml".toList, wsOf "22"),
    ("xl/worksheets/sheet3.xml".toList, wsOf "33")]⟩

/-- Two declared sheets but only one worksheet part: a length mismatch. -/
def archShort : Archive :=
  ⟨[(wbPath, wbText2),
    ("xl/worksheets/sheet1.xml".toList, wsOf "11")]⟩

/-- One declared sheet but two worksheet parts: a length mismatch the other
way. -/
def archLong : Archive :=
  ⟨[(wbPath, wbText1),
    ("xl/worksheets/sheet1.xml".toList, wsOf "11"),
    ("xl/worksheets/sheet2.xml".toList, wsOf "22")]⟩

/-- A normal two-sheet archive. -/
def archTwo : Archive :=
  ⟨[(wbPath, wbText2),
    ("xl/worksheets/sheet1.xml".toList, wsOf "11"),
    ("xl/worksheets/sheet2.xml".toList, wsOf "22")]⟩

/-- A 3-entry shared-string table next to a string-typed cell referencing
index 5. -/
def archC7 : Archive :=
  ⟨[(wbPath, wbText1),
    (ssPath, "<sst count=\"3\"><si><t>aa</t></si><si><t>bb</t></si><si><t>cc</t></si></sst>".toList),
    ("xl/worksheets/sheet1.xml".toList,
     "<worksheet><sheetData><c r=\"A1\" t=\"s\"><v>5</v></c></sheetData></worksheet>".toList)]⟩

def ssAliceBob : SS := [(0, "Alice".toList), (1, "Bob".toList)]

def exC3a : Chars := "<sheetData><c r=\"A1\" t=\"s\"><v>1</v></c></sheetData>".toList

def exC3b : Chars := "<sheetData><c r=\"B2\"><v>42</v></c></sheetData>".toList

/-- A sheetData section with a duplicate cell address (A1 twice). -/
def exC4 : Chars :=
  "<sheetData><c r=\"A1\"><v>1</v></c><c r=\"B1\"><v>2</v></c><c r=\"A1\"><v>3</v></c></sheetData>".toList

/-- A manifest sheet declaration, decomposed as (text before the first quote,
quoted name, text after the name's closing quote): the fragment is
`pfx ++ '"' :: name ++ '"' :: sfx`, e.g. `sheet name="Sheet1" sheetId="1"`. -/
def declFrag (d : Chars × Chars × Chars) : Chars :=
  d.1 ++ '"' :: d.2.1 ++ '"' :: d.2.2

/-- The sheets section rendered from a list of declarations, each terminated
by the self-closing `/>`. -/
def manifestBody (decls : List (Chars × Chars × Chars)) : Chars :=
  ((decls.map declFrag).map (fun f => f ++ selfClose)).join

/-- Two sheet declarations in the exact shape Excel writes. -/
def declsW : List (Chars × Chars × Chars) :=
  [("sheet name=".toList, "Sheet1".toList, " sheetId=\"1\" r:id=\"rId1\"".toList),
   ("sheet name=".toList, "sh2".toList, " sheetId=\"2\" r:id=\"rId2\"".toList)]

/-- A 3-entry shared-string table. -/
def ssThree : SS := [(0, "aa".toList), (1, "bb".toList), (2, "cc".toList)]

/- Helper lemmas about the scanning primitives. -/

theorem isPrefixOf_iff_exists (l₁ l₂ : Chars) :
    l₁.isPrefixOf l₂ = true ↔ ∃ t, l₁ ++ t = l₂ := by
  induction l₁ generalizing l₂ with
  | nil => simp [List.isPrefixOf]
  | cons a as ih =>
    cases l₂ with
    | nil => simp [List.isPrefixOf]
    | cons b bs =>
      simp only [List.isPrefixOf, Bool.and_eq_true, beq_iff_eq, ih]
      constructor
      · rintro ⟨rfl, t, rfl⟩; exact ⟨t, rfl⟩
      · rintro ⟨t, h⟩
        cases h
        exact ⟨rfl, t, rfl⟩

theorem containsSeq_eq_true (sep l : Chars) :
    containsSeq sep l = true ↔ ∃ u v, u ++ sep ++ v = l := by
  induction l with
  | nil =>
    simp only [containsSeq, List.isEmpty_iff]
    constructor
    · rintro rfl; exact ⟨[], [], rfl⟩
    · rintro ⟨u, v, h⟩
      rcases List.append_eq_nil.mp h with ⟨h1, h2⟩
      exact (List.append_eq_nil.mp h1).2
  | cons c rest ih =>
    simp only [containsSeq, Bool.or_eq_true, isPrefixOf_iff_exists, ih]
    constructor
    · rintro (⟨t, h⟩ | ⟨u, v, h⟩)
      · exact ⟨[], t, by simpa using h⟩
      · exact ⟨c :: u, v, by simp [h]⟩
    · rintro ⟨u, v, h⟩
      cases u with
      | nil => exact .inl ⟨v, by simpa using h⟩
      | cons x xs =>
        simp only [List.cons_append, List.cons.injEq] at h
        exact .inr ⟨xs, v, h.2⟩

theorem containsSeq_singleton (c : Char) (l : Chars) :
    containsSeq [c] l = true ↔ c ∈ l := by
  rw [containsSeq_eq_true]
  constructor
  · rintro ⟨u, v, rfl⟩; simp
  · intro h
    rcases List.append_of_mem h with ⟨u, v, rfl⟩
    exact ⟨u, v, by simp⟩

theorem splitOnL_eq_aux (sep l : Chars) (hs : sep ≠ []) :
    splitOnL sep l = splitOnAux sep.reverse sep.length [] l := by
  cases sep with
  | nil => exact absurd rfl hs
  | cons c s' => rfl

theorem splitOnAux_nil_input (rsep : Chars) (n : Nat) (acc : Chars) :
    splitOnAux rsep n acc [] = [acc.reverse] := rfl

/-- If the separator never ends inside `xs`, the scanner walks through `xs`
accumulating it without emitting a field. -/
theorem splitOnAux_pass (rsep : Chars) (n : Nat) (ys : Chars) :
    ∀ (xs acc : Chars),
      (∀ p q, xs = p ++ q → p ≠ [] → rsep.isPrefixOf (p.reverse ++ acc) = false) →
      splitOnAux rsep n acc (xs ++ ys) = splitOnAux rsep n (xs.reverse ++ acc) ys := by
  intro xs
  induction xs with
  | nil => intro acc _; simp
  | cons x xs' ih =>
    intro acc h
    have hx : rsep.isPrefixOf (x :: acc) = false := by
      have := h [x] xs' rfl (by simp)
      simpa using this
    have step : splitOnAux rsep n acc ((x :: xs') ++ ys)
        = splitOnAux rsep n (x :: acc) (xs' ++ ys) := by
      simp [splitOnAux, hx]
    rw [step, ih (x :: acc) ?_]
    · simp
    · intro p q hpq hp
      have := h (x :: p) q (by simp [hpq]) (by simp)
      simpa [List.append_assoc] using this

/-- No occurrence of `sep` inside `l` means no trigger while scanning `l`. -/
theorem noTrigger_of_not_contains (sep l : Chars) (h : containsSeq sep l = false) :
    ∀ p q, l = p ++ q → p ≠ [] → sep.reverse.isPrefixOf (p.reverse ++ ([] : Chars)) = false := by
  intro p q hpq hp
  rw [List.append_nil]
  cases hb : sep.reverse.isPrefixOf p.reverse with
  | false => rfl
  | true =>
    exfalso
    rcases (isPrefixOf_iff_exists _ _).mp hb with ⟨t, ht⟩
    have hp' : t.reverse ++ sep = p := by
      simpa using congrArg List.reverse ht
    have : containsSeq sep l = true :=
      (containsSeq_eq_true sep l).mpr ⟨t.reverse, q, by rw [hpq, hp']⟩
    rw [h] at this
    exact Bool.false_ne_true this

/-- Python split of a text with no separator occurrence: one field. -/
theorem splitOnL_no_sep (sep l : Chars) (hs : sep ≠ [])
    (h : containsSeq sep l = false) : splitOnL sep l = [l] := by
  rw [splitOnL_eq_aux sep l hs, ← List.append_nil l,
    splitOnAux_pass sep.reverse sep.length [] l [] (noTrigger_of_not_contains sep l h)]
  simp [splitOnAux_nil_input]

/-- Python split at a rendered separator position: if the separator does not
occur earlier than its rendered occurrence, the first field is exactly `xs`.
The hypothesis says `sep` does not occur in `xs ++ sep` other than at the
end. -/
theorem splitOnL_render (sep xs ys : Chars) (hs : sep ≠ [])
    (h : containsSeq sep ((xs ++ sep).dropLast) = false) :
    splitOnL sep (xs ++ sep ++ ys) = xs :: splitOnL sep ys := by
  have hsep : sep.dropLast ++ [sep.getLast hs] = sep := List.dropLast_append_getLast hs
  set s' := sep.dropLast with hs'
  set c := sep.getLast hs with hc
  have hdl : (xs ++ sep).dropLast = xs ++ s' := by
    rw [← hsep, ← List.append_assoc, List.dropLast_concat]
  rw [hdl] at h
  have hassoc : xs ++ sep ++ ys = (xs ++ s') ++ ([c] ++ ys) := by
    rw [← hsep]; simp [List.append_assoc]
  rw [splitOnL_eq_aux sep _ hs, hassoc,
    splitOnAux_pass sep.reverse sep.length ([c] ++ ys) (xs ++ s') []
      (noTrigger_of_not_contains sep (xs ++ s') h)]
  have hacc : c :: ((xs ++ s').reverse ++ []) = sep.reverse ++ xs.reverse := by
    rw [List.append_nil, ← List.reverse_concat, List.append_assoc, hsep,
      List.reverse_append]
  have htrig : sep.reverse.isPrefixOf (c :: ((xs ++ s').reverse ++ [])) = true := by
    rw [hacc]
    exact (isPrefixOf_iff_exists _ _).mpr ⟨xs.reverse, rfl⟩
  have hstep : splitOnAux sep.reverse sep.length ((xs ++ s').reverse ++ []) ([c] ++ ys)
      = ((c :: ((xs ++ s').reverse ++ [])).drop sep.length).reverse ::
        splitOnAux sep.reverse sep.length [] ys := by
    simp only [List.singleton_append, splitOnAux, htrig, if_true]
    rfl
  rw [hstep, hacc]
  have hdrop : (sep.reverse ++ xs.reverse).drop sep.length = xs.reverse := by
    have := List.drop_left sep.reverse xs.reverse
    rwa [List.length_reverse] at this
  rw [hdrop, List.reverse_reverse, ← splitOnL_eq_aux sep ys hs]

/-- Splitting the concatenation of fragments each terminated by the
separator: one field per fragment plus a final empty field (this is the
`[:-1]` pattern of the source). -/
theorem splitOn_join (sep : Chars) (hs : sep ≠ []) :
    ∀ frags : List Chars,
      (∀ f ∈ frags, containsSeq sep ((f ++ sep).dropLast) = false) →
      splitOnL sep ((frags.map (fun f => f ++ sep)).join) = frags ++ [[]] := by
  intro frags
  induction frags with
  | nil =>
    intro _
    have hj : ((([] : List Chars)).map (fun f => f ++ sep)).join = ([] : Chars) := rfl
    rw [hj, splitOnL_eq_aux sep [] hs, splitOnAux_nil_input]
    rfl
  | cons f rest ih =>
    intro h
    have hjoin : ((f :: rest).map (fun f => f ++ sep)).join
        = f ++ sep ++ (rest.map (fun f => f ++ sep)).join := by
      simp [List.append_assoc]
    rw [hjoin, splitOnL_render sep f _ hs (h f (by simp)),
      ih (fun g hg => h g (by simp [hg]))]
    rfl

theorem intercalate_one (sep x : Chars) : List.intercalate sep [x] = x := by
  simp [List.intercalate]

/-- The greedy `(?<=op)(.*)(?=cl)` extraction of a rendered text, under the
side conditions that `op` occurs first at its rendered position and `cl`
occurs last at its rendered position. -/
theorem extractGreedy_render (op cl pre body post : Chars)
    (hop : op ≠ []) (hcl : cl ≠ [])
    (h1 : containsSeq op ((pre ++ op).dropLast) = false)
    (h2 : containsSeq op (body ++ cl ++ post) = false)
    (h3 : containsSeq cl ((body ++ cl).dropLast) = false)
    (h4 : containsSeq cl post = false) :
    extractGreedy op cl (pre ++ op ++ (body ++ cl ++ post)) = some body := by
  have e1 : splitOnL op (pre ++ op ++ (body ++ cl ++ post))
      = pre :: splitOnL op (body ++ cl ++ post) := splitOnL_render op pre _ hop h1
  have e2 : splitOnL op (body ++ cl ++ post) = [body ++ cl ++ post] :=
    splitOnL_no_sep op _ hop h2
  have e3 : splitOnL cl (body ++ cl ++ post) = body :: splitOnL cl post :=
    splitOnL_render cl body post hcl h3
  have e4 : splitOnL cl post = [post] := splitOnL_no_sep cl post hcl h4
  unfold extractGreedy
  rw [e1, e2]
  simp only [List.length_cons, List.length_singleton, List.tail_cons]
  rw [intercalate_one, e3, e4]
  simp [intercalate_one]

/- Association-list (Python dict) lemmas. -/

theorem dictUpdate_cons_ne {α β : Type} [DecidableEq α] (p : α × β) (d : List (α × β))
    (k : α) (v : β) (hp : p.1 ≠ k) :
    dictUpdate (p :: d) k v = p :: dictUpdate d k v := by
  cases h : d.any (fun q => decide (q.1 = k)) with
  | true => simp [dictUpdate, List.any_cons, hp, h]
  | false => simp [dictUpdate, List.any_cons, hp, h]

theorem dictUpdate_cons_eq {α β : Type} [DecidableEq α] (p : α × β) (d : List (α × β))
    (k : α) (v : β) (hp : p.1 = k) :
    dictUpdate (p :: d) k v = (k, v) :: d.map (fun q => if q.1 = k then (k, v) else q) := by
  simp [dictUpdate, List.any_cons, hp]

theorem dictGet_update_self {α β : Type} [DecidableEq α] (d : List (α × β)) (k : α) (v : β) :
    dictGet (dictUpdate d k v) k = some v := by
  induction d with
  | nil => simp [dictUpdate, dictGet, List.find?]
  | cons p d ih =>
    by_cases hp : p.1 = k
    · rw [dictUpdate_cons_eq p d k v hp]
      simp [dictGet, List.find?]
    · rw [dictUpdate_cons_ne p d k v hp]
      simpa [dictGet, List.find?, hp] using ih

theorem any_key_iff {α β : Type} [DecidableEq α] (d : List (α × β)) (k : α) :
    d.any (fun q => decide (q.1 = k)) = true ↔ k ∈ dKeys d := by
  simp only [List.any_eq_true, decide_eq_true_eq, dKeys, List.mem_map]

theorem dKeys_map_update {α β : Type} [DecidableEq α] (d : List (α × β)) (k : α) (v : β) :
    dKeys (d.map (fun q => if q.1 = k then (k, v) else q)) = dKeys d := by
  induction d with
  | nil => rfl
  | cons p d ih =>
    by_cases hp : p.1 = k
    · simpa [dKeys, hp] using ih
    · simpa [dKeys, hp] using ih

theorem dKeys_update_mem {α β : Type} [DecidableEq α] (d : List (α × β)) (k : α) (v : β)
    (h : k ∈ dKeys d) : dKeys (dictUpdate d k v) = dKeys d := by
  have hc : d.any (fun q => decide (q.1 = k)) = true := (any_key_iff d k).mpr h
  unfold dictUpdate
  rw [hc]
  simpa using dKeys_map_update d k v

theorem dKeys_update_not_mem {α β : Type} [DecidableEq α] (d : List (α × β)) (k : α) (v : β)
    (h : k ∉ dKeys d) : dKeys (dictUpdate d k v) = dKeys d ++ [k] := by
  have hc : d.any (fun q => decide (q.1 = k)) = false := by
    cases hb : d.any (fun q => decide (q.1 = k)) with
    | false => rfl
    | true => exact absurd ((any_key_iff d k).mp hb) h
  unfold dictUpdate
  rw [hc]
  simp [dKeys]

theorem dKeys_update_nodup {α β : Type} [DecidableEq α] (d : List (α × β)) (k : α) (v : β)
    (h : (dKeys d).Nodup) : (dKeys (dictUpdate d k v)).Nodup := by
  by_cases hm : k ∈ dKeys d
  · rw [dKeys_update_mem d k v hm]; exact h
  · rw [dKeys_update_not_mem d k v hm]
    simp [List.nodup_append, h, hm]

theorem dKeys_update_toFinset {α β : Type} [DecidableEq α] (d : List (α × β)) (k : α) (v : β) :
    (dKeys (dictUpdate d k v)).toFinset = insert k (dKeys d).toFinset := by
  by_cases hm : k ∈ dKeys d
  · rw [dKeys_update_mem d k v hm]
    exact (Finset.insert_eq_self.mpr (List.mem_toFinset.mpr hm)).symm
  · rw [dKeys_update_not_mem d k v hm]
    ext a
    simp [or_comm]

/- The per-cell loop: the address stored by a successful `processCell` is the
one `findCellAddress` extracts. -/

theorem processCell_addr (ss : SS) (frag : Chars) (av : Chars × Chars)
    (hok : processCell ss frag = .ok av) : findCellAddress frag = some av.1 := by
  unfold processCell at hok
  split at hok
  next => cases hok
  next addr h1 =>
    split at hok
    next => cases hok
    next v h2 =>
      split at hok
      next hm =>
        split at hok
        next => cases hok
        next i h3 =>
          split at hok
          next => cases hok
          next s h4 => cases hok; exact h1
      next hm => cases hok; exact h1

theorem scrapeCells_keys (ss : SS) :
    ∀ (frags : List Chars) (d g : Grid),
      scrapeCells ss d frags = .ok g → (dKeys d).Nodup →
      (dKeys g).Nodup ∧
        (dKeys g).toFinset = (dKeys d).toFinset ∪ (frags.filterMap findCellAddress).toFinset := by
  intro frags
  induction frags with
  | nil =>
    intro d g h hn
    cases h
    simpa using hn
  | cons f rest ih =>
    intro d g h hn
    unfold scrapeCells at h
    cases hp : processCell ss f with
    | error e => rw [hp] at h; cases h
    | ok av =>
      rw [hp] at h
      have haddr : findCellAddress f = some av.1 := processCell_addr ss f av hp
      obtain ⟨hn', hset⟩ := ih (dictUpdate d av.1 av.2) g h (dKeys_update_nodup d av.1 av.2 hn)
      refine ⟨hn', ?_⟩
      rw [hset, dKeys_update_toFinset]
      simp only [List.filterMap_cons, haddr, List.toFinset_cons]
      ext a
      simp only [Finset.mem_union, Finset.mem_insert]
      tauto

/- Enumerated dict construction (shared strings). -/

theorem enum_fold_fresh :
    ∀ (vals : List Chars) (k : Nat) (acc : SS),
      (∀ p ∈ acc, p.1 < k) →
      (enumFromL k vals).foldl (fun d p => dictUpdate d p.1 p.2) acc = acc ++ enumFromL k vals := by
  intro vals
  induction vals with
  | nil => intro k acc _; simp [enumFromL]
  | cons v vs ih =>
    intro k acc hacc
    have hnot : acc.any (fun q => decide (q.1 = k)) = false := by
      cases hb : acc.any (fun q => decide (q.1 = k)) with
      | false => rfl
      | true =>
        exfalso
        rcases List.any_eq_true.mp hb with ⟨q, hq, hk⟩
        have := hacc q hq
        rw [decide_eq_true_eq] at hk
        omega
    have hupd : dictUpdate acc k v = acc ++ [(k, v)] := by
      unfold dictUpdate
      rw [hnot]
      simp
    simp only [enumFromL, List.foldl_cons]
    rw [hupd, ih (k + 1) (acc ++ [(k, v)]) ?_]
    · simp [enumFromL]
    · intro p hp
      rcases List.mem_append.mp hp with h | h
      · exact Nat.lt_succ_of_lt (hacc p h)
      · rcases List.mem_singleton.mp h with rfl
        exact Nat.lt_succ_self k

theorem enumFromL_fst {α : Type} :
    ∀ (vals : List α) (k : Nat),
      dKeys (enumFromL k vals) = (List.range vals.length).map (k + ·) := by
  intro vals
  induction vals with
  | nil => intro k; rfl
  | cons v vs ih =>
    intro k
    simp only [enumFromL, dKeys, List.map_cons, List.length_cons,
      List.range_succ_eq_map, List.map_map]
    refine congrArg₂ _ (by omega) ?_
    have hih := ih (k + 1)
    simp only [dKeys] at hih
    rw [hih]
    refine List.map_congr_left ?_
    intro a _
    simp only [Function.comp_apply]
    omega

/- Fallible extraction map. -/

theorem mapO_eq_some (f : Chars → Option Chars) (g : Chars → Chars) :
    ∀ l : List Chars, (∀ x ∈ l, f x = some (g x)) → mapO f l = some (l.map g) := by
  intro l
  induction l with
  | nil => intro _; rfl
  | cons x xs ih =>
    intro h
    simp only [mapO, h x (by simp), ih (fun y hy => h y (by simp [hy])), List.map_cons]

/- The requested-name filtering loop. -/

theorem listIndex_eq_none (l : List Chars) (x : Chars) (h : x ∉ l) : listIndex l x = none := by
  induction l with
  | nil => rfl
  | cons a as ih =>
    simp only [listIndex]
    rw [if_neg (by rintro rfl; exact h (by simp)),
      ih (fun hx => h (by simp [hx]))]
    rfl

theorem removeRequested_append (shNames : List Chars) :
    ∀ (pre zipNames zs rest : List Chars),
      removeRequested shNames zipNames pre = .ok zs →
      removeRequested shNames zipNames (pre ++ rest) = removeRequested shNames zs rest := by
  intro pre
  induction pre with
  | nil => intro zipNames zs rest h; cases h; rfl
  | cons sn pre' ih =>
    intro zipNames zs rest h
    simp only [removeRequested] at h
    cases hi : listIndex shNames sn with
    | none => simp only [hi] at h; cases h
    | some i =>
      simp only [hi] at h
      by_cases hlt : i < zipNames.length
      · rw [if_pos hlt] at h
        rw [List.cons_append]
        simp only [removeRequested, hi, if_pos hlt]
        exact ih (popAt zipNames i) zs rest h
      · rw [if_neg hlt] at h; cases h

/- The scrape loop cannot finish when there are more parts than names. -/

theorem assembleLoop_overflow (z : Archive) (ss : SS) (shNames : List Chars) :
    ∀ (rest : List Chars) (i : Nat) (db : Database),
      i ≤ shNames.length → shNames.length < i + rest.length →
      ∃ e, assembleLoop z ss shNames i rest db = .error e := by
  intro rest
  induction rest with
  | nil =>
    intro i db h1 h2
    simp only [List.length_nil, Nat.add_zero] at h2
    omega
  | cons zn rest' ih =>
    intro i db h1 h2
    cases hg : shNames[i]? with
    | none => exact ⟨.nameIndexError, by simp [assembleLoop, hg]⟩
    | some nm =>
      have hi : i < shNames.length := by
        by_contra hle
        rw [List.getElem?_eq_none (by omega)] at hg
        cases hg
      cases hr : z.readEntry zn with
      | none => exact ⟨.missingPart, by simp [assembleLoop, hg, hr]⟩
      | some content =>
        cases hs : scrape_worksheetxml content ss with
        | error e => exact ⟨.scrapeError e, by simp [assembleLoop, hg, hr, hs]⟩
        | ok grid =>
          obtain ⟨e, he⟩ := ih (i + 1) (dbAddWs db nm grid) (by omega)
            (by simp only [List.length_cons] at h2; omega)
          exact ⟨e, by simp only [assembleLoop, hg, hr, hs]; exact he⟩

/- Quoted-name extraction from a rendered sheet declaration. -/

theorem quoteField_of_decl (pfx nm sfx : Chars) (hp : '"' ∉ pfx) (hn : '"' ∉ nm) :
    (splitOnL ['"'] (pfx ++ '"' :: nm ++ '"' :: sfx))[1]? = some nm := by
  have hq : (['"'] : Chars) ≠ [] := by simp
  have e1 : splitOnL ['"'] (pfx ++ ['"'] ++ (nm ++ ['"'] ++ sfx))
      = pfx :: splitOnL ['"'] (nm ++ ['"'] ++ sfx) := by
    refine splitOnL_render ['"'] pfx _ hq ?_
    rw [List.dropLast_concat]
    cases hb : containsSeq ['"'] pfx with
    | false => rfl
    | true => exact absurd ((containsSeq_singleton _ _).mp hb) hp
  have e2 : splitOnL ['"'] (nm ++ ['"'] ++ sfx) = nm :: splitOnL ['"'] sfx := by
    refine splitOnL_render ['"'] nm sfx hq ?_
    rw [List.dropLast_concat]
    cases hb : containsSeq ['"'] nm with
    | false => rfl
    | true => exact absurd ((containsSeq_singleton _ _).mp hb) hn
  have hshape : pfx ++ '"' :: nm ++ '"' :: sfx = pfx ++ ['"'] ++ (nm ++ ['"'] ++ sfx) := by
    simp
  rw [hshape, e1, e2]
  simp

theorem mapO_names :
    ∀ decls : List (Chars × Chars × Chars),
      (∀ d ∈ decls, '"' ∉ d.1 ∧ '"' ∉ d.2.1) →
      mapO (fun l => (splitOnL ['"'] l)[1]?) (decls.map declFrag)
        = some (decls.map (fun d => d.2.1)) := by
  intro decls
  induction decls with
  | nil => intro _; rfl
  | cons d ds ih =>
    intro h
    obtain ⟨hp, hn⟩ := h d (by simp)
    have hq := quoteField_of_decl d.1 d.2.1 d.2.2 hp hn
    simp only [List.map_cons, mapO, declFrag, hq,
      ih (fun x hx => h x (by simp [hx]))]

/- The claims. -/

/-- C1: the claim says `readxl` with a non-empty `sheetnames` tuple returns a
Database containing exactly the requested sheets, keyed by the requested
names and scraped from their positionally corresponding worksheet parts.
The code instead POPS the requested name's position OUT of the worksheet-part
list (readxl.py:41) — despite its own comment "remove all names not in entry
sheetnames" and docstring "sheetnames to read into the database" — and then
keys the surviving parts by the FIRST manifest names.  This theorem evaluates
the embedded code at the failing input: three sheets declared, `Sheet1`
requested, and the result is a Database holding the sheets named `Sheet1`
and `Sheet2` carrying the grids of worksheet parts 2 and 3. -/
theorem claim_C1_eval :
    readxl archC1 ["Sheet1".toList] =
      .ok [("Sheet1".toList, [("A1".toList, "22".toList)]),
           ("Sheet2".toList, [("A1".toList, "33".toList)])] := rfl

/-- C2 (amended): no equal-length precondition is checked before assembly.
When the matched worksheet-part list is strictly LONGER than the declared
name list, `readxl` with no requested names does fail with some error (the
name lookup `sh_names[i]` runs out, or a scrape fails first) and no Database
is returned. -/
theorem claim_C2 (z : Archive) (wbText : Chars) (shNames : List Chars)
    (h1 : z.readEntry wbPath = some wbText)
    (h2 : get_sheetnames wbText = some shNames)
    (h3 : shNames.length < (get_zipsheetnames z.names).length) :
    ∃ e, readxl z [] = .error e := by
  have hrun : readxl z [] = assembleLoop z (ssOf z) shNames 0 (get_zipsheetnames z.names) [] := by
    simp [readxl, readxlCore, h1, h2]
  rw [hrun]
  exact assembleLoop_overflow z (ssOf z) shNames (get_zipsheetnames z.names) 0 []
    (Nat.zero_le _) (by simpa using h3)

theorem claim_C2_witness : ∃ e, readxl archLong [] = .error e :=
  claim_C2 archLong wbText1 ["Sheet1".toList] rfl rfl (by decide)

/-- C2 counterexample: the claim as stated says EVERY archive whose declared
names and matched parts have unequal length fails hard before assembly.  On
`archShort` (two declared sheets, one worksheet part) the embedded `readxl`
succeeds and returns a one-sheet Database: no length check exists. -/
theorem claim_C2_counterexample :
    readxl archShort [] = .ok [("Sheet1".toList, [("A1".toList, "11".toList)])]
    ∧ get_sheetnames wbText2 = some ["Sheet1".toList, "Sheet2".toList]
    ∧ (get_zipsheetnames archShort.names).length = 1 :=
  ⟨rfl, rfl, rfl⟩

/-- C3: the per-fragment scrape decides the cell type by the presence of the
marker `t="s"` in the fragment: when present, the stored value is the
shared-string table entry at the integer value of the cell's value token;
when absent, the value token is stored verbatim with no lookup.  The last two
conjuncts check the spec's own examples: table `["Alice", "Bob"]` with
`<c r="A1" t="s"><v>1</v></c>` yields A1 = "Bob", and `<c r="B2"><v>42</v></c>`
yields B2 = "42" even though a table is supplied. -/
theorem claim_C3 :
    (∀ (frag a v : Chars) (ss : SS) (i : Int) (s : Chars),
        findCellAddress frag = some a →
        extractGreedy vOpen vClose frag = some v →
        containsSeq tMark frag = true →
        pyInt v = some i → ssGet ss i = some s →
        processCell ss frag = .ok (a, s))
    ∧ (∀ (frag a v : Chars) (ss : SS),
        findCellAddress frag = some a →
        extractGreedy vOpen vClose frag = some v →
        containsSeq tMark frag = false →
        processCell ss frag = .ok (a, v))
    ∧ scrape_worksheetxml exC3a ssAliceBob = .ok [("A1".toList, "Bob".toList)]
    ∧ scrape_worksheetxml exC3b ssAliceBob = .ok [("B2".toList, "42".toList)] := by
  refine ⟨?_, ?_, rfl, rfl⟩
  · intro frag a v ss i s h1 h2 h3 h4 h5
    simp [processCell, h1, h2, h3, h4, h5]
  · intro frag a v ss h1 h2 h3
    simp [processCell, h1, h2, h3]

theorem claim_C3_witness :
    processCell ssAliceBob "\"A1\" t=\"s\"><v>1</v></c>".toList
      = .ok ("A1".toList, "Bob".toList) :=
  claim_C3.1 ("\"A1\" t=\"s\"><v>1</v></c>".toList) ("A1".toList) ("1".toList)
    ssAliceBob 1 ("Bob".toList) rfl rfl rfl rfl rfl

/-- C4: for every worksheet text on which the scrape succeeds, the number of
grid entries equals the number of distinct cell addresses among the `<c r=`
declarations of its `<sheetData>` section; the second conjunct is the
last-scan-wins overwrite: after an update the stored value at the written
address is the new one. -/
theorem claim_C4 :
    (∀ (text : Chars) (ss : SS) (g : Grid),
        scrape_worksheetxml text ss = .ok g →
        g.length = ((cellFrags text).filterMap findCellAddress).dedup.length)
    ∧ ∀ (d : Grid) (k v : Chars), dictGet (dictUpdate d k v) k = some v := by
  constructor
  · intro text ss g h
    cases hx : extractGreedy sheetDataOpen sheetDataClose text with
    | none => simp only [scrape_worksheetxml, hx] at h; cases h
    | some sec =>
      simp only [scrape_worksheetxml, hx] at h
      have hfrag : cellFrags text = (splitOnL cellMark sec).drop 1 := by
        simp only [cellFrags, hx]
      obtain ⟨hn, hset⟩ :=
        scrapeCells_keys ss ((splitOnL cellMark sec).drop 1) [] g h (by simp [dKeys])
      rw [hfrag]
      have hsets : (dKeys g).toFinset
          = (((splitOnL cellMark sec).drop 1).filterMap findCellAddress).toFinset := by
        rw [hset]; simp [dKeys]
      calc g.length = (dKeys g).length := by simp [dKeys]
        _ = (dKeys g).dedup.length := by rw [List.dedup_eq_self.mpr hn]
        _ = (dKeys g).toFinset.card := (List.card_toFinset _).symm
        _ = (((splitOnL cellMark sec).drop 1).filterMap findCellAddress).toFinset.card := by
            rw [hsets]
        _ = (((splitOnL cellMark sec).drop 1).filterMap findCellAddress).dedup.length :=
            List.card_toFinset _
  · intro d k v
    exact dictGet_update_self d k v

theorem claim_C4_witness :
    (([("A1".toList, "3".toList), ("B1".toList, "2".toList)] : Grid)).length
      = ((cellFrags exC4).filterMap findCellAddress).dedup.length :=
  claim_C4.1 exC4 [] [("A1".toList, "3".toList), ("B1".toList, "2".toList)] rfl

/-- C5: the shared-string reader maps the text-value-tag-delimited substrings,
in order of appearance, to indices equal to their occurrence rank (the table
is literally the enumeration of the extracted values, so its keys are exactly
`0..n-1`); and an archive without the shared-strings part is read with an
empty table instead of failing. -/
theorem claim_C5 :
    (∀ text : Chars, get_sharedStrings text = enumFromL 0 (tagTVals text))
    ∧ (∀ text : Chars, dKeys (get_sharedStrings text) = List.range (tagTVals text).length)
    ∧ ∀ (z : Archive) (req : List Chars),
        z.readEntry ssPath = none → readxl z req = readxlCore z req [] := by
  have h1 : ∀ text : Chars, get_sharedStrings text = enumFromL 0 (tagTVals text) := by
    intro text
    unfold get_sharedStrings
    rw [enum_fold_fresh (tagTVals text) 0 []
      (fun p hp => absurd hp (List.not_mem_nil p))]
    simp
  refine ⟨h1, ?_, ?_⟩
  · intro text
    rw [h1 text, enumFromL_fst]
    simp
  · intro z req h
    simp only [readxl, ssOf, h]

theorem claim_C5_witness : readxl archShort [] = readxlCore archShort [] [] :=
  claim_C5.2.2 archShort [] rfl

/-- C6: for a manifest rendered from a list of sheet declarations (with the
sheets-section markers present, the markers not occurring at unexpected
places, and the `/>` terminator and `"` quote not occurring inside the
fragments before their rendered positions), `get_sheetnames` returns exactly
one name per self-closing fragment — the first quoted attribute value — in
declaration order. -/
theorem claim_C6 (pre post : Chars) (decls : List (Chars × Chars × Chars))
    (h1 : containsSeq sheetsOpen ((pre ++ sheetsOpen).dropLast) = false)
    (h2 : containsSeq sheetsOpen (manifestBody decls ++ sheetsClose ++ post) = false)
    (h3 : containsSeq sheetsClose ((manifestBody decls ++ sheetsClose).dropLast) = false)
    (h4 : containsSeq sheetsClose post = false)
    (h5 : ∀ d ∈ decls, containsSeq selfClose ((declFrag d ++ selfClose).dropLast) = false)
    (h6 : ∀ d ∈ decls, '"' ∉ d.1 ∧ '"' ∉ d.2.1) :
    get_sheetnames (pre ++ sheetsOpen ++ (manifestBody decls ++ sheetsClose ++ post))
      = some (decls.map (fun d => d.2.1)) := by
  have hop : sheetsOpen ≠ [] := by simp [sheetsOpen]
  have hcl : sheetsClose ≠ [] := by simp [sheetsClose]
  have hext := extractGreedy_render sheetsOpen sheetsClose pre (manifestBody decls) post
    hop hcl h1 h2 h3 h4
  simp only [get_sheetnames, hext]
  have hsplit : splitOnL selfClose (manifestBody decls) = (decls.map declFrag) ++ [[]] := by
    refine splitOn_join selfClose (by simp [selfClose]) (decls.map declFrag) ?_
    intro f hf
    rcases List.mem_map.mp hf with ⟨d, hd, rfl⟩
    exact h5 d hd
  rw [hsplit, List.dropLast_concat]
  exact mapO_names decls h6

theorem claim_C6_witness :
    get_sheetnames ("<workbook>".toList ++ sheetsOpen
        ++ (manifestBody declsW ++ sheetsClose ++ "</workbook>".toList))
      = some ["Sheet1".toList, "sh2".toList] :=
  claim_C6 "<workbook>".toList "</workbook>".toList declsW
    (by decide) (by decide) (by decide) (by decide) (by decide) (by decide)

/-- C7: a string-typed cell whose integer value token is not a key of the
shared-string table makes the scrape fail with the unresolved-shared-string
error, and (second conjunct) on the spec's example — index 5 against a
3-entry table — the whole `readxl` call aborts with that error and no
Database, never a silently defaulted value. -/
theorem claim_C7 :
    (∀ (frag a v : Chars) (ss : SS) (i : Int),
        findCellAddress frag = some a →
        extractGreedy vOpen vClose frag = some v →
        containsSeq tMark frag = true →
        pyInt v = some i → ssGet ss i = none →
        processCell ss frag = .error .unresolvedSharedString)
    ∧ readxl archC7 [] = .error (.scrapeError .unresolvedSharedString) := by
  refine ⟨?_, rfl⟩
  intro frag a v ss i h1 h2 h3 h4 h5
  simp [processCell, h1, h2, h3, h4, h5]

theorem claim_C7_witness :
    processCell ssThree "\"A1\" t=\"s\"><v>5</v></c>".toList
      = .error .unresolvedSharedString :=
  claim_C7.1 ("\"A1\" t=\"s\"><v>5</v></c>".toList) ("A1".toList) ("5".toList)
    ssThree 5 rfl rfl rfl rfl rfl

/-- C8 (amended): when the pops for the requested names processed before the
first non-matching name all succeed (hypothesis `h3`), `readxl` fails with
the sheet-not-found error for that name and returns no Database.  (Without
that proviso the loop can die earlier with a pop index error — see the
counterexample.) -/
theorem claim_C8 (z : Archive) (wbText : Chars) (shNames : List Chars)
    (preNames restNames : List Chars) (bad : Chars) (zs : List Chars)
    (h1 : z.readEntry wbPath = some wbText)
    (h2 : get_sheetnames wbText = some shNames)
    (h3 : removeRequested shNames (get_zipsheetnames z.names) preNames = .ok zs)
    (h4 : bad ∉ shNames) :
    readxl z (preNames ++ bad :: restNames) = .error (.sheetNotFound bad) := by
  have hne : (preNames ++ bad :: restNames).isEmpty = false := by
    cases preNames <;> rfl
  have hrm : removeRequested shNames (get_zipsheetnames z.names) (preNames ++ bad :: restNames)
      = .error (.sheetNotFound bad) := by
    rw [removeRequested_append shNames preNames (get_zipsheetnames z.names) zs
      (bad :: restNames) h3]
    simp only [removeRequested, listIndex_eq_none shNames bad h4]
  simp [readxl, readxlCore, h1, h2, hne, hrm]

theorem claim_C8_witness :
    readxl archTwo ["Bad".toList] = .error (.sheetNotFound ("Bad".toList)) :=
  claim_C8 archTwo wbText2 ["Sheet1".toList, "Sheet2".toList] [] [] ("Bad".toList)
    (get_zipsheetnames archTwo.names) rfl rfl rfl (by decide)

/-- C8 counterexample: the claim as stated promises a sheet-not-found failure
for EVERY call whose request tuple contains a non-matching name.  Requesting
`("Sheet2", "Sheet2", "Bad")` on a normal two-sheet archive instead dies with
the pop index error before the bad name is reached, because the second pop of
index 1 is out of range of the already-shrunk part list. -/
theorem claim_C8_counterexample :
    readxl archTwo ["Sheet2".toList, "Sheet2".toList, "Bad".toList] = .error .popIndexError
    ∧ ReadError.popIndexError ≠ ReadError.sheetNotFound ("Bad".toList) :=
  ⟨rfl, by decide⟩

/-- C9: the zip sheet-name selection is exactly the filter of the archive
entry names by the code's worksheet-part naming convention (the name contains
`sheet`): the selection is a sublist of the entry names (archive enumeration
order preserved) and an entry is selected iff it is an archive entry matching
the convention — so no non-matching entry is ever selected. -/
theorem claim_C9 : ∀ names : List Chars,
    List.Sublist (get_zipsheetnames names) names
    ∧ ∀ n : Chars, n ∈ get_zipsheetnames names ↔ (containsSeq sheetTok n = true ∧ n ∈ names) := by
  intro names
  refine ⟨List.filter_sublist names, ?_⟩
  intro n
  simp [get_zipsheetnames, List.mem_filter, and_comm]

/-- C10: a string-typed cell (fragment containing `t="s"`) whose value token
is rejected by the integer conversion makes the scrape fail with the
int-conversion error — for every shared-string table, i.e. before any table
lookup, and with neither a verbatim pass-through nor the
unresolved-shared-string error. -/
theorem claim_C10 : ∀ (frag a v : Chars) (ss : SS),
    findCellAddress frag = some a →
    extractGreedy vOpen vClose frag = some v →
    containsSeq tMark frag = true →
    pyInt v = none →
    processCell ss frag = .error .intConversionError := by
  intro frag a v ss h1 h2 h3 h4
  simp [processCell, h1, h2, h3, h4]

theorem claim_C10_witness :
    processCell ssThree "\"A1\" t=\"s\"><v>1.5</v></c>".toList
      = .error .intConversionError :=
  claim_C10 ("\"A1\" t=\"s\"><v>1.5</v></c>".toList) ("A1".toList) ("1.5".toList)
    ssThree rfl rfl rfl rfl
